import Mathlib

/-!
Verification of the texture cache core (`TxCache.cpp`): the memory backend
`TxMemoryCache` (byte-budgeted LRU store), the file backend `TxFileStorage`
(read path present, write path disabled in this revision), and the data model
they share.

Modelling conventions:
* `std::map<uint64, TXCACHE*> _cache` is an association list with no duplicate
  keys (the code inserts only after a failed `find`).
* `std::list<uint64> _cachelist` is a list of `(nodeId, checksum)` pairs; the
  node id models the stable identity of a `std::list` node, so that the
  iterator stored in `TXCACHE::it` can be modelled as the id of the node it
  points to (erasing an iterator = erasing the node with that id).
* machine integers are `Nat`; `uint64` arithmetic on `_totalSize` uses
  truncated `Nat` subtraction (every subtraction in the source subtracts the
  stored size of a live entry, which never exceeds the running total in any
  state the source reaches, so no wraparound is dropped).
* `malloc` is assumed to succeed; allocation failure is not modelled.
* external collaborators (`TxUtil::sizeofTx`, zlib `uncompress`) are
  parameters gathered in `TxExt`, per their interface contracts.
-/

/-- Association-list lookup, modelling `std::map::find` (`nullopt` = `end()`). -/
def alookup (k : Nat) : List (Nat × α) → Option α
  | [] => none
  | p :: r => if p.1 = k then some p.2 else alookup k r

/-- Association-list erase, modelling `std::map::erase` of the entry at key
`k` (the maps in scope never hold duplicate keys). -/
def aerase (k : Nat) (l : List (Nat × α)) : List (Nat × α) :=
  l.filter (fun p => p.1 ≠ k)

/-- Erase the `std::list` node a stored iterator points to: remove the node
whose id is `i`. -/
def eraseNode (i : Nat) (l : List (Nat × Nat)) : List (Nat × Nat) :=
  l.filter (fun q => q.1 ≠ i)

/-- Modelled from the spec: the packed format word's high bit flags "payload
is compressed" (`GL_TEXFMT_GZ`, defined in a header not part of the shown
source). -/
def GL_TEXFMT_GZ : Nat := 0x80000000

/-- `GHQTexInfo`: texture metadata plus the payload pointer (`none` = null). -/
structure GHQTexInfo where
  width : Nat
  height : Nat
  format : Nat
  texture_format : Nat
  pixel_type : Nat
  is_hires_tex : Nat
  data : Option (List Nat)
  deriving Repr, DecidableEq

/-- External collaborators, specified at their interface only:
`sizeofTx w h format` is `TxUtil::sizeofTx` (returns 0 on an unknown format);
`uncompress cap src` is the zlib codec called with a destination buffer of
capacity `cap` (`none` = failure, e.g. `Z_BUF_ERROR`). Modelled from the
spec: both live outside the shown source. -/
structure TxExt where
  sizeofTx : Nat → Nat → Nat → Nat
  uncompress : Nat → List Nat → Option (List Nat)

/-- `TXCACHE`: stored byte length, the private copy of the record, and the
id of the `_cachelist` node the stored iterator points to. -/
structure TXCACHE where
  size : Nat
  info : GHQTexInfo
  it : Nat
  deriving Repr, DecidableEq

/-- `TxMemoryCache` state: options word, byte budget, running total,
checksum→entry map, LRU list (front = least recently used) with node ids,
the next fresh node id, and the decompression scratch capacity
(`_gzdestLen`, 0 in this revision — never assigned in the shown source). -/
structure MemCache where
  options : Nat
  cacheLimit : Nat
  totalSize : Nat
  cache : List (Nat × TXCACHE)
  cachelist : List (Nat × Nat)
  nextId : Nat
  gzdestLen : Nat
  deriving Repr, DecidableEq

/-- `TxMemoryCache::TxMemoryCache(options, cacheLimit)`. -/
def MemCache.init (options cacheLimit : Nat) : MemCache :=
  { options := options, cacheLimit := cacheLimit, totalSize := 0,
    cache := [], cachelist := [], nextId := 0, gzdestLen := 0 }

/-- The eviction loop inside `TxMemoryCache::add`: walk `_cachelist` from the
front; for each checksum found in `_cache`, subtract its size and erase it;
advance; stop once `_totalSize <= _cacheLimit` (checked after advancing) or
the list is exhausted; finally the walked prefix is removed from
`_cachelist`. Returns (new total, new map, remaining list). -/
def evictLoop (limit : Nat) : Nat → List (Nat × TXCACHE) → List (Nat × Nat) →
    Nat × List (Nat × TXCACHE) × List (Nat × Nat)
  | total, cache, [] => (total, cache, [])
  | total, cache, q :: rest =>
    let step : Nat × List (Nat × TXCACHE) :=
      match alookup q.2 cache with
      | some e => (total - e.size, aerase q.2 cache)
      | none => (total, cache)
    if step.1 ≤ limit then (step.1, step.2, rest)
    else evictLoop limit step.1 step.2 rest

/-- The stored byte length `add` resolves for a call: the caller's
`dataSize` when nonzero, else `TxUtil::sizeofTx(width, height, format)`. -/
def storedSize (ext : TxExt) (info : GHQTexInfo) (dataSize : Nat) : Nat :=
  if dataSize = 0 then ext.sizeofTx info.width info.height info.format
  else dataSize

/-- `TxMemoryCache::add`. Returns the `bool` result and the new state. -/
def MemCache.add (c : MemCache) (ext : TxExt) (checksum : Nat)
    (info : GHQTexInfo) (dataSize : Nat) : Bool × MemCache :=
  if checksum = 0 ∨ info.data = none ∨ (alookup checksum c.cache).isSome then
    (false, c)
  else
    let dataSize' := storedSize ext info dataSize
    if dataSize' = 0 then (false, c)
    else
      -- if cache size exceeds limit, remove old cache
      let c1 : MemCache :=
        if c.cacheLimit ≠ 0 then
          let total := c.totalSize + dataSize'
          if total > c.cacheLimit ∧ c.cachelist ≠ [] then
            let r := evictLoop c.cacheLimit total c.cache c.cachelist
            { c with totalSize := r.1 - dataSize', cache := r.2.1,
                     cachelist := r.2.2 }
          else
            { c with totalSize := total - dataSize' }
        else c
      -- private copy of the payload (memcpy of dataSize bytes)
      let stored : GHQTexInfo :=
        { info with data := some ((info.data.getD []).take dataSize') }
      let e : TXCACHE := { size := dataSize', info := stored, it := c1.nextId }
      let c2 : MemCache :=
        if c1.cacheLimit ≠ 0 then
          { c1 with cachelist := c1.cachelist ++ [(c1.nextId, checksum)],
                    nextId := c1.nextId + 1 }
        else c1
      (true, { c2 with cache := c2.cache ++ [(checksum, e)],
                       totalSize := c2.totalSize + dataSize' })

/-- Rewrite the stored LRU back-reference of the entry at `k` to node `i`
(`((*itMap).second)->it = --(_cachelist.end())`). -/
def updateIt (k i : Nat) (l : List (Nat × TXCACHE)) : List (Nat × TXCACHE) :=
  l.map (fun p => if p.1 = k then (p.1, { p.2 with it := i }) else p)

/-- `TxMemoryCache::get`. Returns the filled record on success (`none` = the
`bool` result is false) and the new state (LRU promotion happens on a hit
even when decompression then fails). -/
def MemCache.get (c : MemCache) (ext : TxExt) (checksum : Nat) :
    Option GHQTexInfo × MemCache :=
  if checksum = 0 ∨ c.cache = [] then (none, c)
  else
    match alookup checksum c.cache with
    | none => (none, c)
    | some e =>
      -- push it to the back of the list
      let c1 : MemCache :=
        if c.cacheLimit ≠ 0 then
          { c with cachelist := eraseNode e.it c.cachelist ++
                     [(c.nextId, checksum)],
                   cache := updateIt checksum c.nextId c.cache,
                   nextId := c.nextId + 1 }
        else c
      -- zlib decompress it
      if e.info.format &&& GL_TEXFMT_GZ ≠ 0 then
        match ext.uncompress c.gzdestLen (e.info.data.getD []) with
        | none => (none, c1)
        | some out =>
          (some { e.info with data := some out,
                              format := e.info.format &&& 0x7FFFFFFF }, c1)
      else (some e.info, c1)

/-- `TxMemoryCache::del`. -/
def MemCache.del (c : MemCache) (checksum : Nat) : Bool × MemCache :=
  if checksum = 0 ∨ c.cache = [] then (false, c)
  else
    match alookup checksum c.cache with
    | none => (false, c)
    | some e =>
      let l := if c.cachelist ≠ [] then eraseNode e.it c.cachelist
               else c.cachelist
      (true, { c with cache := aerase checksum c.cache,
                      cachelist := l,
                      totalSize := c.totalSize - e.size })

/-- `TxMemoryCache::isCached`. -/
def MemCache.isCached (c : MemCache) (checksum : Nat) : Bool :=
  (alookup checksum c.cache).isSome

/-- `TxMemoryCache::clear`. -/
def MemCache.clear (c : MemCache) : MemCache :=
  { c with cache := [], cachelist := [], totalSize := 0 }

/-- `TxMemoryCache::empty`. -/
def MemCache.empty (c : MemCache) : Bool := c.cache.isEmpty

/-- `TxMemoryCache::size`. -/
def MemCache.size (c : MemCache) : Nat := c.cache.length

/-- `TxMemoryCache::save`: the body is `return false;` — nothing is written.
The second component models the file produced (`none` = no file). -/
def MemCache.save (_c : MemCache) (_config : Nat) : Bool × Option (List Nat) :=
  (false, none)

/-- Little-endian byte-list decoding (the on-disk fields are fixed-width
host-endian words; a concrete endianness is fixed for the model). -/
def leNat : List Nat → Nat
  | [] => 0
  | b :: r => b % 256 + 256 * leNat r

/-- Read exactly `n` bytes from the stream: `some (taken, rest)`, or `none`
when fewer than `n` remain. -/
def readBytes (n : Nat) (bs : List Nat) : Option (List Nat × List Nat) :=
  if n ≤ bs.length then some (bs.take n, bs.drop n) else none

/-- The record loop of `TxMemoryCache::load`: read one fixed-layout header
(checksum 8, width 4, height 4, format 4, texel format 2, pixel type 2,
hi-res flag 1, payload size 4), then that many payload bytes, feed the
record through `add` (stored size = payload size for compressed records,
else recomputed), and repeat until the stream ends. The source's trailing
iteration that re-reads stale variables at EOF is rejected there as a
duplicate `add`; the model ends the loop at a short header read, which is
observationally the same. -/
def loadRecords (ext : TxExt) (c : MemCache) (bs : List Nat) : MemCache :=
  match h : readBytes 29 bs with
  | none => c
  | some (hdr, rest) =>
    let checksum := leNat (hdr.take 8)
    let width := leNat ((hdr.drop 8).take 4)
    let height := leNat ((hdr.drop 12).take 4)
    let format := leNat ((hdr.drop 16).take 4)
    let texfmt := leNat ((hdr.drop 20).take 2)
    let pixtype := leNat ((hdr.drop 22).take 2)
    let hires := leNat ((hdr.drop 24).take 1)
    let dataSize := leNat ((hdr.drop 25).take 4)
    let tmpInfo : GHQTexInfo :=
      { width := width, height := height, format := format,
        texture_format := texfmt, pixel_type := pixtype,
        is_hires_tex := hires, data := some (rest.take dataSize) }
    let c' := (c.add ext checksum tmpInfo
      (if format &&& GL_TEXFMT_GZ ≠ 0 then dataSize else 0)).2
    loadRecords ext c' (rest.drop dataSize)
termination_by bs.length
decreasing_by
  simp only [readBytes] at h
  split at h
  · next hle =>
    cases h
    simp only [List.length_drop]
    omega
  · exact absurd h (by simp)

/-- `TxMemoryCache::load`: `file` is the opened stream (`none` = `gzopen`
failed). Reads the 4-byte config header; on a match (or `force`) runs the
record loop; returns `!_cache.empty()` on the resulting state. -/
def MemCache.load (c : MemCache) (ext : TxExt) (file : Option (List Nat))
    (config : Nat) (force : Bool) : Bool × MemCache :=
  let c' :=
    match file with
    | none => c
    | some bs =>
      match readBytes 4 bs with
      | none => c
      | some (cw, rest) =>
        if leNat cw = config ∨ force then loadRecords ext c rest else c
  (!c'.cache.isEmpty, c')

/-- The operations a caller can apply to a `TxMemoryCache`
(`isCached`/`empty`/`size`/`totalSize`/`save` do not mutate; `setOptions`
touches only the options word). -/
inductive MemOp where
  | add (checksum : Nat) (info : GHQTexInfo) (dataSize : Nat)
  | get (checksum : Nat)
  | del (checksum : Nat)
  | clear
  | load (file : Option (List Nat)) (config : Nat) (force : Bool)
  | setOptions (options : Nat)

/-- State after one memory-backend operation. -/
def MemCache.applyOp (c : MemCache) (ext : TxExt) : MemOp → MemCache
  | .add k i d => (c.add ext k i d).2
  | .get k => (c.get ext k).2
  | .del k => (c.del k).2
  | .clear => c.clear
  | .load f cfg force => (c.load ext f cfg force).2
  | .setOptions o => { c with options := o }

/-- The `_cache`/`_cachelist` coherence invariant of `TxMemoryCache` (§3 of
the spec, maintained whenever the byte budget is nonzero): node ids are
distinct and below `nextId`, list checksums are distinct, map keys are
distinct, every map entry's stored iterator points at the one list node
holding its checksum, and every list node's checksum is a map key. -/
def MemInv (c : MemCache) : Prop :=
  (c.cachelist.map Prod.fst).Nodup ∧
  (c.cachelist.map Prod.snd).Nodup ∧
  (c.cache.map Prod.fst).Nodup ∧
  (∀ p ∈ c.cache, (p.2.it, p.1) ∈ c.cachelist) ∧
  (∀ q ∈ c.cachelist, q.2 ∈ c.cache.map Prod.fst) ∧
  (∀ q ∈ c.cachelist, q.1 < c.nextId)

instance (c : MemCache) : Decidable (MemInv c) := by
  unfold MemInv; infer_instance

/-- `TxFileStorage` state. `_gzdest0` is never assigned in the shown source,
so `gzdest0Set` starts false; `infile` is the opened input stream content
(`none` = not open); the write stream never opens in this revision. -/
structure FileStorage where
  options : Nat
  totalSize : Nat
  storage : List (Nat × Int)
  infile : Option (List Nat)
  outfileOpen : Bool
  storagePos : Int
  dirty : Bool
  gzdest0Set : Bool
  gzdestLen : Nat
  deriving Repr, DecidableEq

/-- `TxFileStorage::TxFileStorage(options, cachePath)`. -/
def FileStorage.init (options : Nat) : FileStorage :=
  { options := options, totalSize := 0, storage := [], infile := none,
    outfileOpen := false, storagePos := 0, dirty := false,
    gzdest0Set := false, gzdestLen := 0 }

/-- `TxFileStorage::open`: the body is disabled (`return false;` before the
`#if 0` block) — always fails, opens nothing. -/
def FileStorage.openFile (s : FileStorage) (_forRead : Bool) :
    Bool × FileStorage :=
  (false, s)

/-- `TxFileStorage::readData`, reading from the stream positioned at the
record: fixed header fields, a nonzero payload size, the `_gzdest0` null
check, the payload read, and decompression when the format is flagged
compressed. -/
def FileStorage.readData (s : FileStorage) (ext : TxExt) (bs : List Nat) :
    Option GHQTexInfo :=
  match readBytes 21 bs with
  | none => none
  | some (hdr, rest) =>
    let width := leNat (hdr.take 4)
    let height := leNat ((hdr.drop 4).take 4)
    let format := leNat ((hdr.drop 8).take 4)
    let texfmt := leNat ((hdr.drop 12).take 2)
    let pixtype := leNat ((hdr.drop 14).take 2)
    let hires := leNat ((hdr.drop 16).take 1)
    let dataSize := leNat ((hdr.drop 17).take 4)
    if dataSize = 0 then none
    else if ¬s.gzdest0Set then none
    else match readBytes dataSize rest with
      | none => none
      | some (payload, _) =>
        let base : GHQTexInfo :=
          { width := width, height := height, format := format,
            texture_format := texfmt, pixel_type := pixtype,
            is_hires_tex := hires, data := none }
        if format &&& GL_TEXFMT_GZ ≠ 0 then
          match ext.uncompress s.gzdestLen payload with
          | none => none
          | some out =>
            some { base with data := some out,
                             format := format &&& 0x7FFFFFFF }
        else some { base with data := some payload }

/-- `TxFileStorage::add`: placeholder, `return true;` with no effect. -/
def FileStorage.add (s : FileStorage) (_checksum : Nat) (_info : GHQTexInfo)
    (_dataSize : Nat) : Bool × FileStorage :=
  (true, s)

/-- `TxFileStorage::get`: guard, index lookup, (always-failing) open when no
input stream is usable, then seek + `readData`. -/
def FileStorage.get (s : FileStorage) (ext : TxExt) (checksum : Nat) :
    Option GHQTexInfo × FileStorage :=
  if checksum = 0 ∨ s.storage = [] then (none, s)
  else
    match alookup checksum s.storage with
    | none => (none, s)
    | some off =>
      if s.outfileOpen ∨ s.infile = none then (none, s)
      else
        match s.infile with
        | none => (none, s)
        | some bs => (s.readData ext (bs.drop off.toNat), s)

/-- `TxFileStorage::save`: placeholder, `return true;`. -/
def FileStorage.save (s : FileStorage) (_config : Nat) : Bool × FileStorage :=
  (true, s)

/-- `TxFileStorage::load`: the body is disabled (`return false;` before the
`#if 0` block) — fails without touching the index. -/
def FileStorage.load (s : FileStorage) (_config : Nat) (_force : Bool) :
    Bool × FileStorage :=
  (false, s)

/-- `TxFileStorage::del`: `return false;`. -/
def FileStorage.del (s : FileStorage) (_checksum : Nat) : Bool × FileStorage :=
  (false, s)

/-- `TxFileStorage::clear`: `return;`. -/
def FileStorage.clear (s : FileStorage) : FileStorage := s

/-- `TxFileStorage::isCached`. -/
def FileStorage.isCached (s : FileStorage) (checksum : Nat) : Bool :=
  (alookup checksum s.storage).isSome

/-- `TxFileStorage::empty`. -/
def FileStorage.empty (s : FileStorage) : Bool := s.storage.isEmpty

/-- `TxFileStorage::size`. -/
def FileStorage.size (s : FileStorage) : Nat := s.storage.length

/-- The operations a caller can apply to a `TxFileStorage`. -/
inductive FileOp where
  | add (checksum : Nat) (info : GHQTexInfo) (dataSize : Nat)
  | get (checksum : Nat)
  | save (config : Nat)
  | load (config : Nat) (force : Bool)
  | del (checksum : Nat)
  | clear
  | setOptions (options : Nat)

/-- State after one file-backend operation. -/
def FileStorage.applyOp (s : FileStorage) (ext : TxExt) : FileOp → FileStorage
  | .add k i d => (s.add k i d).2
  | .get k => (s.get ext k).2
  | .save cfg => (s.save cfg).2
  | .load cfg force => (s.load cfg force).2
  | .del k => (s.del k).2
  | .clear => s.clear
  | .setOptions o => { s with options := o }

/-- Cumulative stored bytes of the live map entries (what `_totalSize`
tracks between operations). -/
def sumSizes (l : List (Nat × TXCACHE)) : Nat :=
  (l.map fun p => p.2.size).sum

/-- One `add` call of a test sequence: checksum, record, `dataSize`. -/
structure AddCall where
  checksum : Nat
  info : GHQTexInfo
  dataSize : Nat

/-- Run one `add` of a sequence, also accumulating the largest stored size
among the calls that succeeded. -/
def addCallFold (ext : TxExt) : MemCache × Nat → AddCall → MemCache × Nat
  | (c, m), a =>
    let r := c.add ext a.checksum a.info a.dataSize
    (r.2, if r.1 then max m (storedSize ext a.info a.dataSize) else m)

/-- The config fingerprint in a cache file's 4-byte header (`none` when the
file is absent or shorter than the header). -/
def headerConfig (file : Option (List Nat)) : Option Nat :=
  file.bind fun bs => (readBytes 4 bs).map fun p => leNat p.1

/-- A concrete external environment for concrete evaluations: 4 bytes per
texel, and a codec that succeeds exactly when the output fits the
destination capacity. -/
def extDemo : TxExt :=
  { sizeofTx := fun w h _ => w * h * 4,
    uncompress := fun cap src => if src.length ≤ cap then some src else none }

/-- A concrete one-texel record with the given format word. -/
def infoD (fmt : Nat) : GHQTexInfo :=
  { width := 1, height := 1, format := fmt, texture_format := 3,
    pixel_type := 5, is_hires_tex := 1, data := some [9, 8, 7, 6] }



/-- The strengthened induction invariant behind the budget bound (§8 of the
spec): the configured budget, the running total's accounting, a bound on
every live entry by the largest successful stored size `s.2`, distinct map
keys, map keys covered by the LRU sequence, and the budget bound itself. -/
def BudgetInv (B : Nat) (s : MemCache × Nat) : Prop :=
  s.1.cacheLimit = B ∧
  s.1.totalSize = sumSizes s.1.cache ∧
  (∀ p ∈ s.1.cache, p.2.size ≤ s.2) ∧
  (s.1.cache.map Prod.fst).Nodup ∧
  (∀ p ∈ s.1.cache, p.1 ∈ s.1.cachelist.map Prod.snd) ∧
  s.1.totalSize ≤ max s.2 B

/-! ### Association-list lemmas -/

theorem alookup_eq_none {l : List (Nat × α)} {k : Nat} :
    alookup k l = none ↔ k ∉ l.map Prod.fst := by
  induction l with
  | nil => simp [alookup]
  | cons p r ih =>
    simp only [alookup, List.map_cons, List.mem_cons]
    by_cases h : p.1 = k
    · simp [h]
    · simp only [if_neg h]
      rw [ih]
      constructor
      · intro hnk
        rintro (he | hm)
        · exact h he.symm
        · exact hnk hm
      · intro hall hm
        exact hall (Or.inr hm)

theorem alookup_mem {l : List (Nat × α)} {k : Nat} {v : α}
    (h : alookup k l = some v) : (k, v) ∈ l := by
  induction l with
  | nil => simp [alookup] at h
  | cons p r ih =>
    by_cases hp : p.1 = k
    · simp [alookup, hp] at h
      subst hp h
      exact List.mem_cons_self _ _
    · simp [alookup, hp] at h
      exact List.mem_cons_of_mem _ (ih h)

theorem alookup_append {l₁ l₂ : List (Nat × α)} {k : Nat} :
    alookup k (l₁ ++ l₂) =
      match alookup k l₁ with
      | some v => some v
      | none => alookup k l₂ := by
  induction l₁ with
  | nil => simp [alookup]
  | cons p r ih =>
    by_cases hp : p.1 = k <;> simp [alookup, hp, ih]

theorem alookup_aerase_self {l : List (Nat × α)} {k : Nat} :
    alookup k (aerase k l) = none := by
  rw [alookup_eq_none]
  intro hmem
  rcases List.mem_map.mp hmem with ⟨p, hp, hk⟩
  rcases List.mem_filter.mp hp with ⟨_, hne⟩
  simp [hk] at hne

theorem aerase_sublist (k : Nat) (l : List (Nat × α)) :
    (aerase k l).Sublist l :=
  List.filter_sublist l

theorem alookup_of_mem_nodup {l : List (Nat × α)} {k : Nat} {v : α}
    (hnd : (l.map Prod.fst).Nodup) (hmem : (k, v) ∈ l) :
    alookup k l = some v := by
  induction l with
  | nil => simp at hmem
  | cons p r ih =>
    simp only [List.map_cons, List.nodup_cons] at hnd
    rcases List.mem_cons.mp hmem with h | h
    · simp [alookup, ← h]
    · have hk : p.1 ≠ k := by
        intro he
        exact hnd.1 (he ▸ List.mem_map.mpr ⟨(k, v), h, he ▸ rfl⟩)
      simp [alookup, hk, ih hnd.2 h]

theorem sumSizes_aerase {l : List (Nat × TXCACHE)} {k : Nat} {e : TXCACHE}
    (hnd : (l.map Prod.fst).Nodup) (h : alookup k l = some e) :
    sumSizes l = sumSizes (aerase k l) + e.size := by
  induction l with
  | nil => simp [alookup] at h
  | cons p r ih =>
    simp only [List.map_cons, List.nodup_cons] at hnd
    by_cases hp : p.1 = k
    · simp only [alookup, hp, if_pos rfl] at h
      have hre : aerase k (p :: r) = aerase k r := by
        simp [aerase, List.filter_cons, hp]
      have hrk : alookup k r = none := by
        rw [alookup_eq_none]
        intro hmem
        exact hnd.1 (hp ▸ hmem)
      have : aerase k r = r := by
        unfold aerase
        apply List.filter_eq_self.mpr
        intro p' hp'
        have : p'.1 ≠ k := by
          intro he
          rw [alookup_eq_none] at hrk
          exact hrk (he ▸ List.mem_map.mpr ⟨p', hp', rfl⟩)
        simpa using this
      rw [hre, this]
      cases h
      simp [sumSizes]
      omega
    · simp only [alookup, if_neg hp] at h
      have hre : aerase k (p :: r) = p :: aerase k r := by
        simp [aerase, List.filter_cons, hp]
      rw [hre]
      simp only [sumSizes, List.map_cons, List.sum_cons] at *
      rw [ih hnd.2 h]
      omega

/-! ### Eviction-loop lemmas -/

theorem evictLoop_cache_sublist (limit : Nat) (l : List (Nat × Nat)) :
    ∀ (t : Nat) (m : List (Nat × TXCACHE)),
      ((evictLoop limit t m l).2.1).Sublist m := by
  induction l with
  | nil => intro t m; simp [evictLoop]
  | cons q rest ih =>
    intro t m
    cases halk : alookup q.2 m with
    | none =>
      simp only [evictLoop, halk]
      split
      · exact List.Sublist.refl m
      · exact ih t m
    | some e =>
      simp only [evictLoop, halk]
      split
      · exact aerase_sublist _ _
      · exact (ih _ _).trans (aerase_sublist _ _)

theorem evictLoop_suffix (limit : Nat) (l : List (Nat × Nat)) :
    ∀ (t : Nat) (m : List (Nat × TXCACHE)),
      (evictLoop limit t m l).2.2 <:+ l := by
  induction l with
  | nil => intro t m; simp [evictLoop]
  | cons q rest ih =>
    intro t m
    cases halk : alookup q.2 m with
    | none =>
      simp only [evictLoop, halk]
      split
      · exact List.suffix_cons q rest
      · exact (ih t m).trans (List.suffix_cons q rest)
    | some e =>
      simp only [evictLoop, halk]
      split
      · exact List.suffix_cons q rest
      · exact (ih _ _).trans (List.suffix_cons q rest)

theorem evictLoop_total (limit d : Nat) (l : List (Nat × Nat)) :
    ∀ (t : Nat) (m : List (Nat × TXCACHE)),
      (m.map Prod.fst).Nodup → t = sumSizes m + d →
      (evictLoop limit t m l).1 = sumSizes ((evictLoop limit t m l).2.1) + d := by
  induction l with
  | nil => intro t m _ ht; simpa [evictLoop] using ht
  | cons q rest ih =>
    intro t m hnd ht
    cases halk : alookup q.2 m with
    | none =>
      simp only [evictLoop, halk]
      split
      · exact ht
      · exact ih t m hnd ht
    | some e =>
      have hsum := sumSizes_aerase hnd halk
      have hnd' : ((aerase q.2 m).map Prod.fst).Nodup :=
        ((aerase_sublist q.2 m).map Prod.fst).nodup hnd
      have ht' : t - e.size = sumSizes (aerase q.2 m) + d := by omega
      simp only [evictLoop, halk]
      split
      · exact ht'
      · exact ih _ _ hnd' ht'

theorem evictLoop_stop (limit : Nat) (l : List (Nat × Nat)) :
    ∀ (t : Nat) (m : List (Nat × TXCACHE)),
      (evictLoop limit t m l).1 ≤ limit ∨ (evictLoop limit t m l).2.2 = [] := by
  induction l with
  | nil => intro t m; simp [evictLoop]
  | cons q rest ih =>
    intro t m
    cases halk : alookup q.2 m with
    | none =>
      simp only [evictLoop, halk]
      split
      · next h => exact Or.inl h
      · exact ih t m
    | some e =>
      simp only [evictLoop, halk]
      split
      · next h => exact Or.inl h
      · exact ih _ _

theorem evictLoop_mem_list (limit : Nat) (l : List (Nat × Nat)) :
    ∀ (t : Nat) (m : List (Nat × TXCACHE)), ∀ q' ∈ l,
      q'.2 ∈ ((evictLoop limit t m l).2.1).map Prod.fst →
      q' ∈ (evictLoop limit t m l).2.2 := by
  induction l with
  | nil => intro t m q' hq' _; simp at hq'
  | cons q rest ih =>
    intro t m q' hq' hkey
    have hqgone : ∀ (m' : List (Nat × TXCACHE)),
        alookup q.2 m' = none → q.2 ∉ m'.map Prod.fst :=
      fun _ h => alookup_eq_none.mp h
    rcases List.mem_cons.mp hq' with rfl | hq'rest
    · -- the walked head never survives in the map
      cases halk : alookup q'.2 m with
      | none =>
        simp only [evictLoop, halk] at hkey ⊢
        split at hkey
        · exact absurd hkey (hqgone m halk)
        · next h =>
          have hsub : ((evictLoop limit t m rest).2.1).map Prod.fst
              |>.Sublist (m.map Prod.fst) :=
            (evictLoop_cache_sublist limit rest t m).map Prod.fst
          rw [if_neg h]
          exact absurd (hsub.mem hkey) (hqgone m halk)
      | some e =>
        have hgone : q'.2 ∉ (aerase q'.2 m).map Prod.fst :=
          hqgone _ alookup_aerase_self
        simp only [evictLoop, halk] at hkey ⊢
        split at hkey
        · exact absurd hkey hgone
        · next h =>
          have hsub : ((evictLoop limit (t - e.size) (aerase q'.2 m)
              rest).2.1).map Prod.fst |>.Sublist ((aerase q'.2 m).map
              Prod.fst) :=
            (evictLoop_cache_sublist limit rest _ _).map Prod.fst
          rw [if_neg h]
          exact absurd (hsub.mem hkey) hgone
    · cases halk : alookup q.2 m with
      | none =>
        simp only [evictLoop, halk] at hkey ⊢
        split at hkey
        · next h => rw [if_pos h]; exact hq'rest
        · next h => rw [if_neg h]; exact ih t m q' hq'rest hkey
      | some e =>
        simp only [evictLoop, halk] at hkey ⊢
        split at hkey
        · next h => rw [if_pos h]; exact hq'rest
        · next h => rw [if_neg h]; exact ih _ _ q' hq'rest hkey

/-! ### Erase / update helpers -/

theorem mem_aerase {l : List (Nat × α)} {k : Nat} {p : Nat × α} :
    p ∈ aerase k l ↔ p ∈ l ∧ p.1 ≠ k := by
  simp [aerase, List.mem_filter]

theorem keys_mem_aerase {l : List (Nat × α)} {j k : Nat} :
    j ∈ (aerase k l).map Prod.fst ↔ j ∈ l.map Prod.fst ∧ j ≠ k := by
  constructor
  · intro h
    rcases List.mem_map.mp h with ⟨p, hp, hj⟩
    rcases mem_aerase.mp hp with ⟨hpl, hpk⟩
    exact ⟨List.mem_map.mpr ⟨p, hpl, hj⟩, hj ▸ hpk⟩
  · rintro ⟨h, hk⟩
    rcases List.mem_map.mp h with ⟨p, hp, hj⟩
    exact List.mem_map.mpr ⟨p, mem_aerase.mpr ⟨hp, hj ▸ hk⟩, hj⟩

theorem mem_eraseNode {l : List (Nat × Nat)} {i : Nat} {q : Nat × Nat} :
    q ∈ eraseNode i l ↔ q ∈ l ∧ q.1 ≠ i := by
  simp [eraseNode, List.mem_filter]

theorem eraseNode_sublist (i : Nat) (l : List (Nat × Nat)) :
    (eraseNode i l).Sublist l :=
  List.filter_sublist l

theorem keys_updateIt {l : List (Nat × TXCACHE)} {k i : Nat} :
    (updateIt k i l).map Prod.fst = l.map Prod.fst := by
  induction l with
  | nil => rfl
  | cons p r ih =>
    by_cases h : p.1 = k <;> simp [updateIt, h] at ih ⊢ <;> exact ih

theorem mem_updateIt {l : List (Nat × TXCACHE)} {k i : Nat}
    {p : Nat × TXCACHE} :
    p ∈ updateIt k i l ↔ ∃ p0 ∈ l,
      p = if p0.1 = k then (p0.1, { p0.2 with it := i }) else p0 := by
  simp only [updateIt, List.mem_map]
  constructor
  · rintro ⟨p0, hp0, rfl⟩
    exact ⟨p0, hp0, rfl⟩
  · rintro ⟨p0, hp0, rfl⟩
    exact ⟨p0, hp0, rfl⟩

theorem alookup_updateIt_self {l : List (Nat × TXCACHE)} {k i : Nat} :
    alookup k (updateIt k i l) =
      (alookup k l).map fun e => { e with it := i } := by
  induction l with
  | nil => simp [updateIt, alookup]
  | cons p r ih =>
    by_cases h : p.1 = k <;> simp [updateIt, alookup, h] at ih ⊢ <;>
      simpa using ih

/-- Survivor nodes of the eviction walk keep their map entries: needed
because the walked prefix (and only it) is what gets erased from the map. -/
theorem evictLoop_list_keeps_keys (limit : Nat) (l : List (Nat × Nat)) :
    ∀ (t : Nat) (m : List (Nat × TXCACHE)), (l.map Prod.snd).Nodup →
      ∀ q ∈ (evictLoop limit t m l).2.2, q.2 ∈ m.map Prod.fst →
        q.2 ∈ ((evictLoop limit t m l).2.1).map Prod.fst := by
  induction l with
  | nil => intro t m _ q hq; simp [evictLoop] at hq
  | cons q0 rest ih =>
    intro t m hnd q hq hkey
    rw [List.map_cons, List.nodup_cons] at hnd
    have hnd' : (rest.map Prod.snd).Nodup := hnd.2
    have hq0 : q0.2 ∉ rest.map Prod.snd := hnd.1
    cases halk : alookup q0.2 m with
    | none =>
      simp only [evictLoop, halk] at hq ⊢
      split at hq
      · next h => rw [if_pos h]; exact hkey
      · next h => rw [if_neg h]; exact ih t m hnd' q hq hkey
    | some e =>
      have hqrest : q ∈ rest := by
        revert hq
        simp only [evictLoop, halk]
        split
        · exact fun hq => hq
        · intro hq
          exact ((evictLoop_suffix limit rest _ _).sublist).mem hq
      have hqne : q.2 ≠ q0.2 := by
        intro he
        exact hq0 (he ▸ List.mem_map.mpr ⟨q, hqrest, rfl⟩)
      have hkey' : q.2 ∈ (aerase q0.2 m).map Prod.fst :=
        keys_mem_aerase.mpr ⟨hkey, hqne⟩
      simp only [evictLoop, halk] at hq ⊢
      split at hq
      · next h => rw [if_pos h]; exact hkey'
      · next h => rw [if_neg h]; exact ih _ _ hnd' q hq hkey'

/-! ### Projections preserved by `add` -/

theorem add_cacheLimit (c : MemCache) (ext : TxExt) (k : Nat)
    (info : GHQTexInfo) (d : Nat) :
    ((c.add ext k info d).2).cacheLimit = c.cacheLimit := by
  unfold MemCache.add
  dsimp only
  split_ifs <;> rfl

theorem add_gzdestLen (c : MemCache) (ext : TxExt) (k : Nat)
    (info : GHQTexInfo) (d : Nat) :
    ((c.add ext k info d).2).gzdestLen = c.gzdestLen := by
  unfold MemCache.add
  dsimp only
  split_ifs <;> rfl

/-! ### `MemInv` preservation -/

/-- Both branches of a successful `add` end by appending the fresh node to
the LRU list and the fresh entry to the map; this packages the checks. -/
theorem meminv_append {o lim ts gz : Nat} {m' : List (Nat × TXCACHE)}
    {l' : List (Nat × Nat)} {n k sz : Nat} {st : GHQTexInfo}
    (h1 : (l'.map Prod.fst).Nodup) (h2 : (l'.map Prod.snd).Nodup)
    (h3 : (m'.map Prod.fst).Nodup)
    (h4 : ∀ p ∈ m', (p.2.it, p.1) ∈ l')
    (h5 : ∀ q ∈ l', q.2 ∈ m'.map Prod.fst)
    (h6 : ∀ q ∈ l', q.1 < n)
    (hk1 : k ∉ m'.map Prod.fst) :
    MemInv ⟨o, lim, ts, m' ++ [(k, ⟨sz, st, n⟩)], l' ++ [(n, k)], n + 1, gz⟩ := by
  have hk2 : k ∉ l'.map Prod.snd := by
    intro hmem
    rcases List.mem_map.mp hmem with ⟨q, hq, hqk⟩
    exact hk1 (hqk ▸ h5 q hq)
  refine ⟨?_, ?_, ?_, ?_, ?_, ?_⟩
  · rw [List.map_append, List.nodup_append]
    refine ⟨h1, by simp, ?_⟩
    intro a ha
    simp only [List.map_cons, List.map_nil, List.mem_singleton]
    rcases List.mem_map.mp ha with ⟨q, hq, hqa⟩
    intro he
    exact absurd (hqa ▸ h6 q hq) (by omega)
  · rw [List.map_append, List.nodup_append]
    refine ⟨h2, by simp, ?_⟩
    intro a ha
    simp only [List.map_cons, List.map_nil, List.mem_singleton]
    intro he
    exact hk2 (he ▸ ha)
  · rw [List.map_append, List.nodup_append]
    refine ⟨h3, by simp, ?_⟩
    intro a ha
    simp only [List.map_cons, List.map_nil, List.mem_singleton]
    intro he
    exact hk1 (he ▸ ha)
  · intro p hp
    rcases List.mem_append.mp hp with hp | hp
    · exact List.mem_append_left _ (h4 p hp)
    · rcases List.mem_singleton.mp hp with rfl
      exact List.mem_append_right _ (List.mem_singleton.mpr rfl)
  · intro q hq
    rcases List.mem_append.mp hq with hq | hq
    · rw [List.map_append]
      exact List.mem_append_left _ (h5 q hq)
    · rcases List.mem_singleton.mp hq with rfl
      rw [List.map_append]
      exact List.mem_append_right _ (by simp)
  · intro q hq
    rcases List.mem_append.mp hq with hq | hq
    · exact Nat.lt_succ_of_lt (h6 q hq)
    · rcases List.mem_singleton.mp hq with rfl
      exact Nat.lt_succ_self n

/-! ### Case equations for `add` -/

theorem add_spec_reject (c : MemCache) (ext : TxExt) (k : Nat)
    (info : GHQTexInfo) (d : Nat)
    (h : k = 0 ∨ info.data = none ∨ (alookup k c.cache).isSome ∨
      storedSize ext info d = 0) :
    c.add ext k info d = (false, c) := by
  unfold MemCache.add
  by_cases hg : k = 0 ∨ info.data = none ∨ (alookup k c.cache).isSome
  · rw [if_pos hg]
  · rw [if_neg hg]
    dsimp only
    have hsz : storedSize ext info d = 0 := by tauto
    rw [if_pos hsz]

theorem add_spec_nolimit (c : MemCache) (ext : TxExt) (k : Nat)
    (info : GHQTexInfo) (d : Nat)
    (hg : ¬(k = 0 ∨ info.data = none ∨ (alookup k c.cache).isSome))
    (hsz : storedSize ext info d ≠ 0) (hlim : c.cacheLimit = 0) :
    c.add ext k info d = (true,
      { c with
        cache := c.cache ++ [(k, ⟨storedSize ext info d,
          { info with data := some ((info.data.getD []).take
            (storedSize ext info d)) }, c.nextId⟩)],
        totalSize := c.totalSize + storedSize ext info d }) := by
  have hlim' : ¬(c.cacheLimit ≠ 0) := by simpa using hlim
  unfold MemCache.add
  rw [if_neg hg]
  dsimp only
  rw [if_neg hsz, if_neg hlim']
  try dsimp only
  rw [if_neg hlim']

theorem add_spec_noevict (c : MemCache) (ext : TxExt) (k : Nat)
    (info : GHQTexInfo) (d : Nat)
    (hg : ¬(k = 0 ∨ info.data = none ∨ (alookup k c.cache).isSome))
    (hsz : storedSize ext info d ≠ 0) (hlim : c.cacheLimit ≠ 0)
    (htrig : ¬(c.totalSize + storedSize ext info d > c.cacheLimit ∧
      c.cachelist ≠ [])) :
    c.add ext k info d = (true,
      { c with
        cache := c.cache ++ [(k, ⟨storedSize ext info d,
          { info with data := some ((info.data.getD []).take
            (storedSize ext info d)) }, c.nextId⟩)],
        cachelist := c.cachelist ++ [(c.nextId, k)],
        nextId := c.nextId + 1,
        totalSize := c.totalSize + storedSize ext info d }) := by
  unfold MemCache.add
  rw [if_neg hg]
  dsimp only
  rw [if_neg hsz, if_pos hlim, if_neg htrig]
  try dsimp only
  rw [if_pos hlim]
  try dsimp only
  rw [Nat.add_sub_cancel]

theorem add_spec_evict (c : MemCache) (ext : TxExt) (k : Nat)
    (info : GHQTexInfo) (d : Nat)
    (hg : ¬(k = 0 ∨ info.data = none ∨ (alookup k c.cache).isSome))
    (hsz : storedSize ext info d ≠ 0) (hlim : c.cacheLimit ≠ 0)
    (htrig : c.totalSize + storedSize ext info d > c.cacheLimit ∧
      c.cachelist ≠ []) :
    c.add ext k info d = (true,
      { options := c.options, cacheLimit := c.cacheLimit,
        totalSize := (evictLoop c.cacheLimit
          (c.totalSize + storedSize ext info d) c.cache c.cachelist).1 -
          storedSize ext info d + storedSize ext info d,
        cache := (evictLoop c.cacheLimit
          (c.totalSize + storedSize ext info d) c.cache c.cachelist).2.1 ++
          [(k, ⟨storedSize ext info d,
            { info with data := some ((info.data.getD []).take
              (storedSize ext info d)) }, c.nextId⟩)],
        cachelist := (evictLoop c.cacheLimit
          (c.totalSize + storedSize ext info d) c.cache c.cachelist).2.2 ++
          [(c.nextId, k)],
        nextId := c.nextId + 1, gzdestLen := c.gzdestLen }) := by
  unfold MemCache.add
  rw [if_neg hg]
  dsimp only
  rw [if_neg hsz, if_pos hlim, if_pos htrig]
  try dsimp only
  rw [if_pos hlim]

/-! ### Case equations for `get` and `del` -/

theorem get_spec_miss (c : MemCache) (ext : TxExt) (k : Nat)
    (h : k = 0 ∨ c.cache = [] ∨ alookup k c.cache = none) :
    c.get ext k = (none, c) := by
  unfold MemCache.get
  by_cases hg : k = 0 ∨ c.cache = []
  · rw [if_pos hg]
  · rw [if_neg hg]
    have hn : alookup k c.cache = none := by tauto
    rw [hn]

theorem get_spec_hit (c : MemCache) (ext : TxExt) (k : Nat) (e : TXCACHE)
    (hk : k ≠ 0) (hfind : alookup k c.cache = some e) :
    c.get ext k =
      ((if e.info.format &&& GL_TEXFMT_GZ ≠ 0 then
          match ext.uncompress c.gzdestLen (e.info.data.getD []) with
          | none => none
          | some out => some { e.info with
                               data := some out,
                               format := e.info.format &&& 0x7FFFFFFF }
        else some e.info),
       if c.cacheLimit ≠ 0 then
         { c with cachelist := eraseNode e.it c.cachelist ++ [(c.nextId, k)],
                  cache := updateIt k c.nextId c.cache,
                  nextId := c.nextId + 1 }
       else c) := by
  have hne : c.cache ≠ [] := by
    intro h
    rw [h] at hfind
    simp [alookup] at hfind
  unfold MemCache.get
  rw [if_neg (by simp [hk, hne]), hfind]
  dsimp only
  by_cases hgz : e.info.format &&& GL_TEXFMT_GZ ≠ 0
  · rw [if_pos hgz, if_pos hgz]
    cases huc : ext.uncompress c.gzdestLen (e.info.data.getD []) with
    | none => rfl
    | some out => rfl
  · rw [if_neg hgz, if_neg hgz]

theorem del_spec_miss (c : MemCache) (k : Nat)
    (h : k = 0 ∨ c.cache = [] ∨ alookup k c.cache = none) :
    c.del k = (false, c) := by
  unfold MemCache.del
  by_cases hg : k = 0 ∨ c.cache = []
  · rw [if_pos hg]
  · rw [if_neg hg]
    have hn : alookup k c.cache = none := by tauto
    rw [hn]

theorem del_spec_hit (c : MemCache) (k : Nat) (e : TXCACHE)
    (hk : k ≠ 0) (hfind : alookup k c.cache = some e) :
    c.del k = (true, { c with
      cache := aerase k c.cache,
      cachelist := if c.cachelist ≠ [] then eraseNode e.it c.cachelist
        else c.cachelist,
      totalSize := c.totalSize - e.size }) := by
  have hne : c.cache ≠ [] := by
    intro h
    rw [h] at hfind
    simp [alookup] at hfind
  unfold MemCache.del
  rw [if_neg (by simp [hk, hne]), hfind]

/-! ### Invariant preservation -/

theorem add_meminv (c : MemCache) (ext : TxExt) (k : Nat)
    (info : GHQTexInfo) (d : Nat) (hlim : c.cacheLimit ≠ 0)
    (hinv : MemInv c) : MemInv ((c.add ext k info d).2) := by
  by_cases hg : k = 0 ∨ info.data = none ∨ (alookup k c.cache).isSome
  · rw [add_spec_reject c ext k info d (by tauto)]
    exact hinv
  · by_cases hsz : storedSize ext info d = 0
    · rw [add_spec_reject c ext k info d (by tauto)]
      exact hinv
    · obtain ⟨i1, i2, i3, i4, i5, i6⟩ := hinv
      push_neg at hg
      have hnone : alookup k c.cache = none :=
        Option.not_isSome_iff_eq_none.mp (by simpa using hg.2.2)
      have hknk : k ∉ c.cache.map Prod.fst := alookup_eq_none.mp hnone
      have hg' : ¬(k = 0 ∨ info.data = none ∨ (alookup k c.cache).isSome) := by
        simp [hg.1, hg.2.1, hnone]
      by_cases htrig : c.totalSize + storedSize ext info d > c.cacheLimit ∧
          c.cachelist ≠ []
      · rw [add_spec_evict c ext k info d hg' hsz hlim htrig]
        dsimp only
        set t0 := c.totalSize + storedSize ext info d with ht0
        have hsubm := evictLoop_cache_sublist c.cacheLimit c.cachelist t0
          c.cache
        have hsufl := evictLoop_suffix c.cacheLimit c.cachelist t0 c.cache
        refine meminv_append ?_ ?_ ?_ ?_ ?_ ?_ ?_
        · exact ((hsufl.sublist).map Prod.fst).nodup i1
        · exact ((hsufl.sublist).map Prod.snd).nodup i2
        · exact (hsubm.map Prod.fst).nodup i3
        · intro p hp
          have hpc : p ∈ c.cache := hsubm.mem hp
          exact evictLoop_mem_list c.cacheLimit c.cachelist t0 c.cache
            (p.2.it, p.1) (i4 p hpc) (List.mem_map.mpr ⟨p, hp, rfl⟩)
        · intro q hq
          exact evictLoop_list_keeps_keys c.cacheLimit c.cachelist t0 c.cache
            i2 q hq (i5 q ((hsufl.sublist).mem hq))
        · intro q hq
          exact i6 q ((hsufl.sublist).mem hq)
        · intro hmem
          rcases List.mem_map.mp hmem with ⟨p, hp, hpk⟩
          exact hknk (List.mem_map.mpr ⟨p, hsubm.mem hp, hpk⟩)
      · rw [add_spec_noevict c ext k info d hg' hsz hlim htrig]
        dsimp only
        exact meminv_append i1 i2 i3 i4 i5 i6 hknk

/-- The promotion step of a `get` hit keeps the invariant: the hit entry's
node is removed and a fresh tail node is appended, and the entry's stored
iterator is redirected to it. -/
theorem meminv_promote (c : MemCache) (k : Nat) (e : TXCACHE)
    (hinv : MemInv c) (hfind : alookup k c.cache = some e) :
    MemInv { c with
      cachelist := eraseNode e.it c.cachelist ++ [(c.nextId, k)],
      cache := updateIt k c.nextId c.cache,
      nextId := c.nextId + 1 } := by
  obtain ⟨i1, i2, i3, i4, i5, i6⟩ := hinv
  have hmem : (k, e) ∈ c.cache := alookup_mem hfind
  have hbr : (e.it, k) ∈ c.cachelist := i4 (k, e) hmem
  have hinjf := List.inj_on_of_nodup_map i1
  have hinjs := List.inj_on_of_nodup_map i2
  have hinjk := List.inj_on_of_nodup_map i3
  refine ⟨?_, ?_, ?_, ?_, ?_, ?_⟩
  · rw [List.map_append, List.nodup_append]
    refine ⟨((eraseNode_sublist e.it c.cachelist).map Prod.fst).nodup i1,
      by simp, ?_⟩
    intro a ha
    simp only [List.map_cons, List.map_nil, List.mem_singleton]
    rcases List.mem_map.mp ha with ⟨q, hq, hqa⟩
    intro he
    have := i6 q (mem_eraseNode.mp hq).1
    omega
  · rw [List.map_append, List.nodup_append]
    refine ⟨((eraseNode_sublist e.it c.cachelist).map Prod.snd).nodup i2,
      by simp, ?_⟩
    intro a ha
    simp only [List.map_cons, List.map_nil, List.mem_singleton]
    rcases List.mem_map.mp ha with ⟨q, hq, hqa⟩
    rcases mem_eraseNode.mp hq with ⟨hql, hqit⟩
    intro he
    have hqk : q = (e.it, k) := hinjs hql hbr (by rw [hqa, he])
    exact hqit (by rw [hqk])
  · rw [keys_updateIt]
    exact i3
  · intro p hp
    rcases mem_updateIt.mp hp with ⟨p0, hp0, hpe⟩
    by_cases hpk : p0.1 = k
    · have hp0e : p0 = (k, e) := hinjk hp0 hmem (by simpa using hpk)
      rw [if_pos hpk] at hpe
      rw [hpe, hp0e]
      exact List.mem_append_right _ (by simp)
    · rw [if_neg hpk] at hpe
      have hbr0 : (p0.2.it, p0.1) ∈ c.cachelist := i4 p0 hp0
      have hitne : p0.2.it ≠ e.it := by
        intro he
        have h2 : (p0.2.it, p0.1) = (e.it, k) := hinjf hbr0 hbr (by simpa using he)
        exact hpk (by simpa using congrArg Prod.snd h2)
      rw [hpe]
      exact List.mem_append_left _ (mem_eraseNode.mpr ⟨hbr0, hitne⟩)
  · intro q hq
    rcases List.mem_append.mp hq with hq | hq
    · rw [keys_updateIt]
      exact i5 q ((eraseNode_sublist e.it c.cachelist).mem hq)
    · rcases List.mem_singleton.mp hq with rfl
      rw [keys_updateIt]
      exact List.mem_map.mpr ⟨(k, e), hmem, rfl⟩
  · intro q hq
    rcases List.mem_append.mp hq with hq | hq
    · exact Nat.lt_succ_of_lt (i6 q ((eraseNode_sublist e.it c.cachelist).mem hq))
    · rcases List.mem_singleton.mp hq with rfl
      exact Nat.lt_succ_self _

theorem get_meminv (c : MemCache) (ext : TxExt) (k : Nat)
    (hlim : c.cacheLimit ≠ 0) (hinv : MemInv c) :
    MemInv ((c.get ext k).2) := by
  by_cases hg : k = 0 ∨ c.cache = [] ∨ alookup k c.cache = none
  · rw [get_spec_miss c ext k hg]
    exact hinv
  · push_neg at hg
    rcases Option.ne_none_iff_exists.mp hg.2.2 with ⟨e, he⟩
    rw [get_spec_hit c ext k e hg.1 he.symm]
    dsimp only
    rw [if_pos hlim]
    exact meminv_promote c k e hinv he.symm

theorem del_meminv (c : MemCache) (k : Nat)
    (hinv : MemInv c) : MemInv ((c.del k).2) := by
  by_cases hg : k = 0 ∨ c.cache = [] ∨ alookup k c.cache = none
  · rw [del_spec_miss c k hg]
    exact hinv
  · push_neg at hg
    rcases Option.ne_none_iff_exists.mp hg.2.2 with ⟨e, he⟩
    have hfind := he.symm
    obtain ⟨i1, i2, i3, i4, i5, i6⟩ := hinv
    have hmem : (k, e) ∈ c.cache := alookup_mem hfind
    have hbr : (e.it, k) ∈ c.cachelist := i4 (k, e) hmem
    have hlne : c.cachelist ≠ [] := by
      intro h
      rw [h] at hbr
      simp at hbr
    have hinjf := List.inj_on_of_nodup_map i1
    have hinjs := List.inj_on_of_nodup_map i2
    rw [del_spec_hit c k e hg.1 hfind]
    dsimp only
    rw [if_pos hlne]
    refine ⟨?_, ?_, ?_, ?_, ?_, ?_⟩
    · exact ((eraseNode_sublist e.it c.cachelist).map Prod.fst).nodup i1
    · exact ((eraseNode_sublist e.it c.cachelist).map Prod.snd).nodup i2
    · exact ((aerase_sublist k c.cache).map Prod.fst).nodup i3
    · intro p hp
      rcases mem_aerase.mp hp with ⟨hpc, hpk⟩
      have hbr0 : (p.2.it, p.1) ∈ c.cachelist := i4 p hpc
      have hitne : p.2.it ≠ e.it := by
        intro hee
        have : (p.2.it, p.1) = (e.it, k) := hinjf hbr0 hbr (by simpa using hee)
        exact hpk (by simpa using congrArg Prod.snd this)
      exact mem_eraseNode.mpr ⟨hbr0, hitne⟩
    · intro q hq
      rcases mem_eraseNode.mp hq with ⟨hql, hqit⟩
      have hqk : q.2 ≠ k := by
        intro he2
        have : q = (e.it, k) := hinjs hql hbr (by simpa using he2)
        exact hqit (by rw [this])
      exact keys_mem_aerase.mpr ⟨i5 q hql, hqk⟩
    · intro q hq
      exact i6 q ((eraseNode_sublist e.it c.cachelist).mem hq)

theorem clear_meminv (c : MemCache) : MemInv c.clear := by
  unfold MemCache.clear MemInv
  simp

theorem loadRecords_meminv (ext : TxExt) (c : MemCache) (bs : List Nat) :
    c.cacheLimit ≠ 0 → MemInv c → MemInv (loadRecords ext c bs) := by
  induction c, bs using loadRecords.induct ext with
  | case1 c bs h =>
    intro _ hinv
    rw [loadRecords]
    rw [h]
    exact hinv
  | case2 c bs hdr rest h checksum width height format texfmt pixtype hires
      dataSize tmpInfo c' ih =>
    intro hlim hinv
    rw [loadRecords, h]
    exact ih (by rw [add_cacheLimit] at *; exact hlim)
      (add_meminv _ _ _ _ _ hlim hinv)

theorem load_meminv (c : MemCache) (ext : TxExt) (file : Option (List Nat))
    (config : Nat) (force : Bool) (hlim : c.cacheLimit ≠ 0)
    (hinv : MemInv c) : MemInv ((c.load ext file config force).2) := by
  unfold MemCache.load
  dsimp only
  cases file with
  | none => exact hinv
  | some bs =>
    dsimp only
    cases h : readBytes 4 bs with
    | none => exact hinv
    | some p =>
      obtain ⟨cw, rest⟩ := p
      dsimp only
      split
      · exact loadRecords_meminv ext c rest hlim hinv
      · exact hinv

/-! ### The budget bound -/

theorem sumSizes_append_single (l : List (Nat × TXCACHE)) (k : Nat)
    (e : TXCACHE) : sumSizes (l ++ [(k, e)]) = sumSizes l + e.size := by
  simp [sumSizes]

theorem budgetInv_step (ext : TxExt) (B : Nat) (hB : B ≠ 0)
    (s : MemCache × Nat) (a : AddCall) (hinv : BudgetInv B s) :
    BudgetInv B (addCallFold ext s a) := by
  obtain ⟨c, m⟩ := s
  obtain ⟨j1, j2, j3, j4, j5, j6⟩ := hinv
  dsimp only at j1 j2 j3 j4 j5 j6
  have hlim : c.cacheLimit ≠ 0 := by rw [j1]; exact hB
  unfold addCallFold
  dsimp only
  by_cases hg : a.checksum = 0 ∨ a.info.data = none ∨
      (alookup a.checksum c.cache).isSome
  · rw [add_spec_reject c ext _ _ _ (by tauto)]
    dsimp only
    exact ⟨j1, j2, j3, j4, j5, j6⟩
  · by_cases hsz : storedSize ext a.info a.dataSize = 0
    · rw [add_spec_reject c ext _ _ _ (by tauto)]
      dsimp only
      exact ⟨j1, j2, j3, j4, j5, j6⟩
    · push_neg at hg
      have hnone : alookup a.checksum c.cache = none :=
        Option.not_isSome_iff_eq_none.mp (by simpa using hg.2.2)
      have hknk : a.checksum ∉ c.cache.map Prod.fst := alookup_eq_none.mp hnone
      have hg' : ¬(a.checksum = 0 ∨ a.info.data = none ∨
          (alookup a.checksum c.cache).isSome) := by
        simp [hg.1, hg.2.1, hnone]
      set D := storedSize ext a.info a.dataSize with hD
      have hDm : D ≤ max m D := Nat.le_max_right m D
      by_cases htrig : c.totalSize + D > c.cacheLimit ∧ c.cachelist ≠ []
      · rw [add_spec_evict c ext _ _ _ hg' hsz hlim htrig]
        dsimp only
        rw [if_pos rfl]
        set t0 := c.totalSize + D with ht0
        have hsubm := evictLoop_cache_sublist c.cacheLimit c.cachelist t0
          c.cache
        have hsufl := evictLoop_suffix c.cacheLimit c.cachelist t0 c.cache
        have htot := evictLoop_total c.cacheLimit D c.cachelist t0 c.cache j4
          (by omega)
        have hstop := evictLoop_stop c.cacheLimit c.cachelist t0 c.cache
        set r := evictLoop c.cacheLimit t0 c.cache c.cachelist with hr
        have hr1D : r.1 = sumSizes r.2.1 + D := htot
        refine ⟨j1, ?_, ?_, ?_, ?_, ?_⟩
        · rw [sumSizes_append_single]
          dsimp only
          omega
        · intro p hp
          rcases List.mem_append.mp hp with hp | hp
          · exact le_trans (j3 p (hsubm.mem hp)) (Nat.le_max_left m D)
          · rcases List.mem_singleton.mp hp with rfl
            exact hDm
        · rw [List.map_append, List.nodup_append]
          refine ⟨(hsubm.map Prod.fst).nodup j4, by simp, ?_⟩
          intro x hx
          simp only [List.map_cons, List.map_nil, List.mem_singleton]
          intro he
          rcases List.mem_map.mp hx with ⟨p, hp, hpx⟩
          exact hknk (List.mem_map.mpr ⟨p, hsubm.mem hp, by rw [hpx, he]⟩)
        · intro p hp
          rw [List.map_append]
          rcases List.mem_append.mp hp with hp | hp
          · have hp1 : p.1 ∈ c.cachelist.map Prod.snd := j5 p (hsubm.mem hp)
            rcases List.mem_map.mp hp1 with ⟨q, hq, hqp⟩
            have hq' : q ∈ r.2.2 := evictLoop_mem_list c.cacheLimit
              c.cachelist t0 c.cache q hq
              (by rw [hqp]; exact List.mem_map.mpr ⟨p, hp, rfl⟩)
            exact List.mem_append_left _ (List.mem_map.mpr ⟨q, hq', hqp⟩)
          · rcases List.mem_singleton.mp hp with rfl
            exact List.mem_append_right _ (by simp)
        · dsimp only
          rcases hstop with hle | hnil
          · have : r.1 - D + D = r.1 := by omega
            rw [this]
            rw [j1] at hle
            exact le_trans hle (Nat.le_max_right _ B)
          · have hempty : r.2.1 = [] := by
              rw [List.eq_nil_iff_forall_not_mem]
              intro p hp
              have hp1 : p.1 ∈ c.cachelist.map Prod.snd := j5 p (hsubm.mem hp)
              rcases List.mem_map.mp hp1 with ⟨q, hq, hqp⟩
              have hq' : q ∈ r.2.2 := evictLoop_mem_list c.cacheLimit
                c.cachelist t0 c.cache q hq
                (by rw [hqp]; exact List.mem_map.mpr ⟨p, hp, rfl⟩)
              rw [hnil] at hq'
              simp at hq'
            rw [hempty] at hr1D
            simp [sumSizes] at hr1D
            have : r.1 - D + D = D := by omega
            rw [this]
            exact le_trans (Nat.le_max_right m D) (Nat.le_max_left _ B)
      · rw [add_spec_noevict c ext _ _ _ hg' hsz hlim htrig]
        dsimp only
        rw [if_pos rfl]
        refine ⟨j1, ?_, ?_, ?_, ?_, ?_⟩
        · rw [sumSizes_append_single]
          dsimp only
          omega
        · intro p hp
          rcases List.mem_append.mp hp with hp | hp
          · exact le_trans (j3 p hp) (Nat.le_max_left m D)
          · rcases List.mem_singleton.mp hp with rfl
            exact hDm
        · rw [List.map_append, List.nodup_append]
          refine ⟨j4, by simp, ?_⟩
          intro x hx
          simp only [List.map_cons, List.map_nil, List.mem_singleton]
          intro he
          exact hknk (he ▸ hx)
        · intro p hp
          rw [List.map_append]
          rcases List.mem_append.mp hp with hp | hp
          · exact List.mem_append_left _ (j5 p hp)
          · rcases List.mem_singleton.mp hp with rfl
            exact List.mem_append_right _ (by simp)
        · dsimp only
          push_neg at htrig
          by_cases hover : c.totalSize + D > c.cacheLimit
          · have hlnil : c.cachelist = [] := htrig hover
            have hcnil : c.cache = [] := by
              rw [List.eq_nil_iff_forall_not_mem]
              intro p hp
              have := j5 p hp
              rw [hlnil] at this
              simp at this
            rw [hcnil] at j2
            simp [sumSizes] at j2
            rw [j2]
            simp only [Nat.zero_add]
            exact le_trans (Nat.le_max_right m D) (Nat.le_max_left _ B)
          · rw [j1] at hover
            exact le_trans (by omega) (Nat.le_max_right (max m D) B)

/-- C2: for the memory backend constructed with a nonzero byte budget `B`,
after every sequence of `add` calls starting from the empty cache,
`totalSize()` is at most the maximum of the largest single stored size ever
successfully added and `B`: the eviction pass inside `add` always restores
the budget unless the newly inserted entry alone exceeds it. -/
theorem mem_budget_bound (ext : TxExt) (opts B : Nat) (calls : List AddCall)
    (hB : B ≠ 0) :
    (calls.foldl (addCallFold ext) (MemCache.init opts B, 0)).1.totalSize ≤
      max (calls.foldl (addCallFold ext) (MemCache.init opts B, 0)).2 B := by
  have hfold : ∀ (s : MemCache × Nat), BudgetInv B s →
      BudgetInv B (calls.foldl (addCallFold ext) s) := by
    induction calls with
    | nil => exact fun s h => h
    | cons a rest ih =>
      intro s h
      exact ih _ (budgetInv_step ext B hB s a h)
  have h0 : BudgetInv B (MemCache.init opts B, 0) := by
    refine ⟨rfl, rfl, ?_, ?_, ?_, ?_⟩ <;> simp [MemCache.init, sumSizes]
  exact (hfold _ h0).2.2.2.2.2

theorem mem_budget_bound_witness :
    (1000 : Nat) ≠ 0 ∧
    (([⟨1, infoD 0, 600⟩, ⟨2, infoD 0, 600⟩] : List AddCall).foldl
      (addCallFold extDemo) (MemCache.init 0 1000, 0)).1.totalSize ≤
      max (([⟨1, infoD 0, 600⟩, ⟨2, infoD 0, 600⟩] : List AddCall).foldl
        (addCallFold extDemo) (MemCache.init 0 1000, 0)).2 1000 :=
  ⟨by decide, mem_budget_bound extDemo 0 1000 _ (by decide)⟩

/-- C7: with a nonzero byte budget, every memory-backend operation (`add`
including its eviction pass, `get`, `del`, `clear`, `load`; `setOptions`
trivially) preserves the bijection between lookup-map keys and LRU-sequence
positions expressed by `MemInv`. -/
theorem mem_ops_preserve_lru_bijection (ext : TxExt) (c : MemCache)
    (op : MemOp) (hlim : c.cacheLimit ≠ 0) (hinv : MemInv c) :
    MemInv (c.applyOp ext op) := by
  cases op with
  | add k i d => exact add_meminv c ext k i d hlim hinv
  | get k => exact get_meminv c ext k hlim hinv
  | del k => exact del_meminv c k hinv
  | clear => exact clear_meminv c
  | load f cfg force => exact load_meminv c ext f cfg force hlim hinv
  | setOptions o => exact hinv

theorem mem_ops_preserve_lru_bijection_witness :
    (MemCache.init 0 1000).cacheLimit ≠ 0 ∧ MemInv (MemCache.init 0 1000) ∧
    MemInv ((MemCache.init 0 1000).applyOp extDemo
      (MemOp.add 1 (infoD 0) 4)) :=
  ⟨by decide, by decide,
    mem_ops_preserve_lru_bijection extDemo (MemCache.init 0 1000)
      (MemOp.add 1 (infoD 0) 4) (by decide) (by decide)⟩

/-- C4: the memory backend's `add` returns false and leaves the whole cache
state unchanged whenever the checksum is zero, the payload pointer is null,
the checksum is already present, or `dataSize` is 0 and the size cannot be
computed from (width, height, format). -/
theorem mem_add_rejects (c : MemCache) (ext : TxExt) (k : Nat)
    (info : GHQTexInfo) (d : Nat)
    (h : k = 0 ∨ info.data = none ∨ (alookup k c.cache).isSome ∨
      (d = 0 ∧ ext.sizeofTx info.width info.height info.format = 0)) :
    c.add ext k info d = (false, c) := by
  apply add_spec_reject
  rcases h with h | h | h | ⟨h1, h2⟩
  · exact Or.inl h
  · exact Or.inr (Or.inl h)
  · exact Or.inr (Or.inr (Or.inl h))
  · refine Or.inr (Or.inr (Or.inr ?_))
    rw [storedSize, if_pos h1]
    exact h2

theorem mem_add_rejects_witness :
    ((0 : Nat) = 0 ∨ (infoD 0).data = none ∨
      (alookup 0 (MemCache.init 0 0).cache).isSome ∨
      ((4 : Nat) = 0 ∧ extDemo.sizeofTx (infoD 0).width (infoD 0).height
        (infoD 0).format = 0)) ∧
    (MemCache.init 0 0).add extDemo 0 (infoD 0) 4 =
      (false, MemCache.init 0 0) :=
  ⟨Or.inl rfl, mem_add_rejects (MemCache.init 0 0) extDemo 0 (infoD 0) 4
    (Or.inl rfl)⟩

/-! ### File backend -/

theorem fileGet_state (s : FileStorage) (ext : TxExt) (k : Nat) :
    (s.get ext k).2 = s := by
  unfold FileStorage.get
  split
  · rfl
  · cases alookup k s.storage with
    | none => rfl
    | some off =>
      dsimp only
      split
      · rfl
      · cases s.infile <;> rfl

theorem applyFileOp_const (s : FileStorage) (ext : TxExt) (op : FileOp) :
    (s.applyOp ext op).storage = s.storage ∧
    (s.applyOp ext op).totalSize = s.totalSize := by
  cases op with
  | add k i d => exact ⟨rfl, rfl⟩
  | get k => rw [FileStorage.applyOp, fileGet_state]; exact ⟨rfl, rfl⟩
  | save cfg => exact ⟨rfl, rfl⟩
  | load cfg force => exact ⟨rfl, rfl⟩
  | del k => exact ⟨rfl, rfl⟩
  | clear => exact ⟨rfl, rfl⟩
  | setOptions o => exact ⟨rfl, rfl⟩

theorem fileFold_inert (ext : TxExt) (ops : List FileOp) :
    ∀ s0 : FileStorage, s0.storage = [] → s0.totalSize = 0 →
      (ops.foldl (fun s op => s.applyOp ext op) s0).storage = [] ∧
      (ops.foldl (fun s op => s.applyOp ext op) s0).totalSize = 0 := by
  induction ops with
  | nil => exact fun s0 h1 h2 => ⟨h1, h2⟩
  | cons op rest ih =>
    intro s0 h1 h2
    have hc := applyFileOp_const s0 ext op
    exact ih _ (by rw [hc.1]; exact h1) (by rw [hc.2]; exact h2)

/-- C9: in this revision the file backend's index is never populated — its
`load` returns false and inserts nothing, so in every state reachable from
a fresh `TxFileStorage` by any operation sequence, `empty()` is true,
`size()` and `totalSize()` are 0, `get` and `isCached` fail for every
checksum, and `load` fails leaving the index empty. -/
theorem file_backend_reachable_empty (ext : TxExt) (opts : Nat)
    (ops : List FileOp) (k cfg : Nat) (force : Bool) :
    ((ops.foldl (fun s op => s.applyOp ext op)
        (FileStorage.init opts)).empty = true) ∧
    ((ops.foldl (fun s op => s.applyOp ext op)
        (FileStorage.init opts)).size = 0) ∧
    ((ops.foldl (fun s op => s.applyOp ext op)
        (FileStorage.init opts)).totalSize = 0) ∧
    (((ops.foldl (fun s op => s.applyOp ext op)
        (FileStorage.init opts)).load cfg force) =
      (false, ops.foldl (fun s op => s.applyOp ext op)
        (FileStorage.init opts))) ∧
    (((ops.foldl (fun s op => s.applyOp ext op)
        (FileStorage.init opts)).get ext k).1 = none) ∧
    ((ops.foldl (fun s op => s.applyOp ext op)
        (FileStorage.init opts)).isCached k = false) := by
  obtain ⟨hst, hts⟩ := fileFold_inert ext ops (FileStorage.init opts) rfl rfl
  refine ⟨?_, ?_, hts, rfl, ?_, ?_⟩
  · rw [FileStorage.empty, hst]
    rfl
  · rw [FileStorage.size, hst]
    rfl
  · rw [FileStorage.get, if_pos (Or.inr hst)]
  · rw [FileStorage.isCached, hst]
    rfl

/-- C6 (amended): the file backend's write-side operations in this revision
are inert placeholders: `add` unconditionally returns true (it does not
implement the memory backend's zero-checksum / null-payload / duplicate
rejection) and mutates nothing; `save` returns true, `del` returns false,
and `clear` is a no-op — none of them persist or mutate observable state. -/
theorem file_write_ops_inert (s : FileStorage) (k : Nat) (info : GHQTexInfo)
    (d cfg : Nat) :
    s.add k info d = (true, s) ∧ s.save cfg = (true, s) ∧
    s.del k = (false, s) ∧ s.clear = s :=
  ⟨rfl, rfl, rfl, rfl⟩

theorem file_add_zero_checksum_cex :
    ((FileStorage.init 0).add 0 (infoD 0) 4).1 = true := by decide

/-- C8 (amended): I/O failure is absorbed without corrupting the in-memory
store, but the memory backend's `load` returns `!_cache.empty()` — not
necessarily false — when the file cannot be opened: on a fresh (empty)
cache it returns false, on a non-empty cache it returns true. The memory
backend's `save` always fails without writing; the file backend's `get`
fails leaving state unchanged whenever no input stream is open (and `open`
always fails in this revision); the file backend's `load` fails leaving
state unchanged. -/
theorem io_failure_amended :
    (∀ (c : MemCache) (ext : TxExt) (cfg : Nat) (force : Bool),
      c.load ext none cfg force = (!c.cache.isEmpty, c)) ∧
    (∀ (c : MemCache) (cfg : Nat), c.save cfg = (false, none)) ∧
    (∀ (s : FileStorage) (ext : TxExt) (k : Nat), s.infile = none →
      s.get ext k = (none, s)) ∧
    (∀ (s : FileStorage) (cfg : Nat) (force : Bool),
      s.load cfg force = (false, s)) := by
  refine ⟨fun c ext cfg force => rfl, fun c cfg => rfl, ?_,
    fun s cfg force => rfl⟩
  intro s ext k h
  unfold FileStorage.get
  split
  · rfl
  · cases alookup k s.storage with
    | none => rfl
    | some off =>
      dsimp only
      rw [if_pos (Or.inr h)]

theorem io_failure_amended_witness :
    (FileStorage.init 0).infile = none ∧
    (FileStorage.init 0).get extDemo 5 = (none, FileStorage.init 0) :=
  ⟨rfl, io_failure_amended.2.2.1 (FileStorage.init 0) extDemo 5 rfl⟩

theorem io_failure_cex :
    (((MemCache.init 0 0).add extDemo 1 (infoD 0) 4).2.load extDemo none 7
      false).1 = true := by decide

/-- C5 (amended): the memory backend's `save` is unimplemented in this
revision — it always returns false and writes no file — so a save/load
round trip reproduces nothing (a fresh cache stays empty); and `load` into
a fresh empty cache whose file's header fingerprint does not match the
requested one, with `force = false`, returns false and leaves the cache
empty. -/
theorem mem_save_load_amended :
    (∀ (c : MemCache) (cfg : Nat), c.save cfg = (false, none)) ∧
    (∀ (ext : TxExt) (opts lim cfg : Nat) (file : Option (List Nat)),
      headerConfig file ≠ some cfg →
      (MemCache.init opts lim).load ext file cfg false =
        (false, MemCache.init opts lim)) := by
  refine ⟨fun c cfg => rfl, ?_⟩
  intro ext opts lim cfg file h
  unfold MemCache.load
  cases file with
  | none => rfl
  | some bs =>
    dsimp only
    cases hrb : readBytes 4 bs with
    | none => rfl
    | some p =>
      obtain ⟨cw, rest⟩ := p
      dsimp only
      have hne : ¬(leNat cw = cfg ∨ false = true) := by
        simp only [Bool.false_eq_true, or_false]
        intro he
        exact h (by simp [headerConfig, hrb, he])
      rw [if_neg hne]
      rfl

theorem mem_save_load_amended_witness :
    (MemCache.init 0 0).save 7 = (false, none) ∧
    (MemCache.init 0 0).load extDemo none 7 false =
      (false, MemCache.init 0 0) :=
  ⟨mem_save_load_amended.1 (MemCache.init 0 0) 7,
    mem_save_load_amended.2 extDemo 0 0 7 none (by decide)⟩

theorem mem_save_load_cex :
    ((MemCache.init 0 0).load extDemo
      ((((MemCache.init 0 0).add extDemo 1 (infoD 0) 4).2.save 5).2) 5
      false).2.isCached 1 = false := by decide

/-- C10: with a nonzero byte budget, a `get` on a cached entry whose stored
format carries the compressed flag and whose decompression fails returns
false and leaves the entry (its stored record and size), and `totalSize`,
unchanged — but the checksum has already been promoted to the
most-recently-used tail of the LRU sequence (only the entry's stored
iterator is redirected to the fresh tail node), so the failed read is not
LRU-order-neutral. -/
theorem get_codec_failure_promotes (c : MemCache) (ext : TxExt) (k : Nat)
    (e : TXCACHE) (hlim : c.cacheLimit ≠ 0) (hk : k ≠ 0)
    (hfind : alookup k c.cache = some e)
    (hgz : e.info.format &&& GL_TEXFMT_GZ ≠ 0)
    (hfail : ext.uncompress c.gzdestLen (e.info.data.getD []) = none) :
    (c.get ext k).1 = none ∧
    (c.get ext k).2.totalSize = c.totalSize ∧
    alookup k (c.get ext k).2.cache = some { e with it := c.nextId } ∧
    (c.get ext k).2.cachelist =
      eraseNode e.it c.cachelist ++ [(c.nextId, k)] := by
  rw [get_spec_hit c ext k e hk hfind]
  dsimp only
  rw [if_pos hgz, hfail, if_pos hlim]
  dsimp only
  refine ⟨rfl, rfl, ?_, rfl⟩
  rw [alookup_updateIt_self, hfind]
  rfl

theorem get_codec_failure_promotes_witness :
    ((((MemCache.init 0 1000).add extDemo 1 (infoD GL_TEXFMT_GZ) 4).2.get
      extDemo 1).1 = none) :=
  (get_codec_failure_promotes
    (((MemCache.init 0 1000).add extDemo 1 (infoD GL_TEXFMT_GZ) 4).2)
    extDemo 1
    ⟨4, { infoD GL_TEXFMT_GZ with data := some [9, 8, 7, 6] }, 0⟩
    (by decide) (by decide) (by decide) (by decide) (by decide)).1

/-! ### add-then-get round trip -/

/-- Every successful `add`, in all three budget branches, returns true and
appends the fresh entry (whose iterator is the fresh tail node) behind a
map remainder that does not contain the checksum. -/
theorem add_success_shape (c : MemCache) (ext : TxExt) (k : Nat)
    (info : GHQTexInfo) (d : Nat)
    (hg : ¬(k = 0 ∨ info.data = none ∨ (alookup k c.cache).isSome))
    (hsz : storedSize ext info d ≠ 0) :
    ∃ m' : List (Nat × TXCACHE), alookup k m' = none ∧
      (c.add ext k info d).1 = true ∧
      (c.add ext k info d).2.cache = m' ++ [(k, ⟨storedSize ext info d,
        { info with data := some ((info.data.getD []).take
          (storedSize ext info d)) }, c.nextId⟩)] ∧
      (c.add ext k info d).2.gzdestLen = c.gzdestLen := by
  have hnone : alookup k c.cache = none := by
    push_neg at hg
    exact Option.not_isSome_iff_eq_none.mp (by simpa using hg.2.2)
  have hg' : ¬(k = 0 ∨ info.data = none ∨ (alookup k c.cache).isSome) := hg
  by_cases hlim : c.cacheLimit = 0
  · rw [add_spec_nolimit c ext k info d hg' hsz hlim]
    exact ⟨c.cache, hnone, rfl, rfl, rfl⟩
  · by_cases htrig : c.totalSize + storedSize ext info d > c.cacheLimit ∧
        c.cachelist ≠ []
    · rw [add_spec_evict c ext k info d hg' hsz hlim htrig]
      refine ⟨_, ?_, rfl, rfl, rfl⟩
      rw [alookup_eq_none]
      intro hmem
      have hsubm := evictLoop_cache_sublist c.cacheLimit c.cachelist
        (c.totalSize + storedSize ext info d) c.cache
      exact (alookup_eq_none.mp hnone) ((hsubm.map Prod.fst).mem hmem)
    · rw [add_spec_noevict c ext k info d hg' hsz hlim htrig]
      exact ⟨c.cache, hnone, rfl, rfl, rfl⟩

/-- C1 (amended): for every state and every valid never-added input
(checksum ≠ 0, non-null payload whose length is the resolved nonzero stored
size), `add` succeeds, and an immediate `get` of that checksum returns:
for a format without the compressed flag, true with metadata and payload
bytes exactly as passed to `add`; for a format carrying the compressed
flag, the result of decompressing the stored payload — true with the flag
cleared and the decompressed bytes on codec success, false on codec
failure. -/
theorem mem_add_then_get_amended (c : MemCache) (ext : TxExt) (k : Nat)
    (info : GHQTexInfo) (d : Nat) (bytes : List Nat)
    (hk : k ≠ 0) (hdata : info.data = some bytes)
    (habs : alookup k c.cache = none)
    (hlen : storedSize ext info d = bytes.length)
    (hnz : bytes.length ≠ 0) :
    (c.add ext k info d).1 = true ∧
    (info.format &&& GL_TEXFMT_GZ = 0 →
      ((c.add ext k info d).2.get ext k).1 = some info) ∧
    (info.format &&& GL_TEXFMT_GZ ≠ 0 →
      ((c.add ext k info d).2.get ext k).1 =
        match ext.uncompress c.gzdestLen bytes with
        | none => none
        | some out => some { info with
                             data := some out,
                             format := info.format &&& 0x7FFFFFFF }) := by
  have hg : ¬(k = 0 ∨ info.data = none ∨ (alookup k c.cache).isSome) := by
    simp [hk, hdata, habs]
  have hsz : storedSize ext info d ≠ 0 := by rw [hlen]; exact hnz
  obtain ⟨m', hm'none, htrue, hcache, hgzlen⟩ :=
    add_success_shape c ext k info d hg hsz
  have hstored : ({ info with data := some ((info.data.getD []).take
      (storedSize ext info d)) } : GHQTexInfo) = info := by
    rw [hdata]
    dsimp only [Option.getD]
    rw [hlen, List.take_length, ← hdata]
  rw [hstored] at hcache
  have hfind : alookup k (c.add ext k info d).2.cache =
      some ⟨storedSize ext info d, info, c.nextId⟩ := by
    rw [hcache, alookup_append, hm'none]
    simp [alookup]
  have hget := get_spec_hit (c.add ext k info d).2 ext k
    ⟨storedSize ext info d, info, c.nextId⟩ hk hfind
  have hv := congrArg Prod.fst hget
  dsimp only at hv
  rw [hgzlen] at hv
  simp only [hdata, Option.getD_some] at hv
  refine ⟨htrue, ?_, ?_⟩
  · intro h0
    rw [hv, if_neg (by simp [h0])]
  · intro hne
    rw [hv, if_pos hne]

theorem mem_add_then_get_amended_witness :
    (((MemCache.init 0 0).add extDemo 1 (infoD 0) 4).2.get extDemo 1).1 =
      some (infoD 0) :=
  (mem_add_then_get_amended (MemCache.init 0 0) extDemo 1 (infoD 0) 4
    [9, 8, 7, 6] (by decide) (by decide) (by decide) (by decide)
    (by decide)).2.1 (by decide)

theorem mem_add_then_get_cex :
    (((MemCache.init 0 0).add extDemo 1 (infoD GL_TEXFMT_GZ) 4).2.get
      extDemo 1).1 = none := by decide

/-- C3 (amended): with a nonzero budget, if entry A is added, then entry B
is added, then A is fetched once with `get` (promoting A to
most-recently-used), and a subsequent add forces exactly one eviction, then
B is evicted and A survives: `get` promotes its entry to the LRU tail and
eviction removes entries in least-recently-used-first order. (As stated,
with A fetched *before* B is added, the code evicts A instead — see the
counterexample.) -/
theorem mem_lru_promotion_amended (ext : TxExt) (opts B a b c3 sA sB sC : Nat)
    (iA iB iC : GHQTexInfo)
    (ha : a ≠ 0) (hb : b ≠ 0) (hc : c3 ≠ 0)
    (hab : a ≠ b) (hac : a ≠ c3) (hbc : b ≠ c3)
    (hdA : iA.data ≠ none) (hdB : iB.data ≠ none) (hdC : iC.data ≠ none)
    (hsA : sA ≠ 0) (hsB : sB ≠ 0) (hsC : sC ≠ 0)
    (hBne : B ≠ 0)
    (hfill : sA + sB ≤ B) (hover : sA + sB + sC > B) (hfit : sA + sC ≤ B) :
    (((((MemCache.init opts B).add ext a iA sA).2.add ext b iB
        sB).2.get ext a).2.add ext c3 iC sC).2.isCached a = true ∧
    (((((MemCache.init opts B).add ext a iA sA).2.add ext b iB
        sB).2.get ext a).2.add ext c3 iC sC).2.isCached b = false ∧
    (((((MemCache.init opts B).add ext a iA sA).2.add ext b iB
        sB).2.get ext a).2.add ext c3 iC sC).2.isCached c3 = true ∧
    (((((MemCache.init opts B).add ext a iA sA).2.add ext b iB
        sB).2.get ext a).2.add ext c3 iC sC).2.totalSize = sA + sC := by
  have hszA : storedSize ext iA sA = sA := by rw [storedSize, if_neg hsA]
  have hszB : storedSize ext iB sB = sB := by rw [storedSize, if_neg hsB]
  have hszC : storedSize ext iC sC = sC := by rw [storedSize, if_neg hsC]
  set stA : GHQTexInfo :=
    { iA with data := some ((iA.data.getD []).take sA) } with hstA
  set stB : GHQTexInfo :=
    { iB with data := some ((iB.data.getD []).take sB) } with hstB
  set stC : GHQTexInfo :=
    { iC with data := some ((iC.data.getD []).take sC) } with hstC
  have h1 : (MemCache.init opts B).add ext a iA sA =
      (true, ⟨opts, B, sA, [(a, ⟨sA, stA, 0⟩)], [(0, a)], 1, 0⟩) := by
    rw [add_spec_noevict (MemCache.init opts B) ext a iA sA
      (by simp [ha, hdA, alookup, MemCache.init])
      (by rw [hszA]; exact hsA) hBne
      (by rintro ⟨-, h⟩; exact h rfl)]
    simp [MemCache.init, hszA, hstA]
  have h2 : (⟨opts, B, sA, [(a, ⟨sA, stA, 0⟩)], [(0, a)], 1, 0⟩ :
        MemCache).add ext b iB sB =
      (true, ⟨opts, B, sA + sB, [(a, ⟨sA, stA, 0⟩), (b, ⟨sB, stB, 1⟩)],
        [(0, a), (1, b)], 2, 0⟩) := by
    rw [add_spec_noevict _ ext b iB sB
      (by simp [hb, hdB, alookup, hab])
      (by rw [hszB]; exact hsB) hBne
      (by rintro ⟨hgt, -⟩; rw [hszB] at hgt; dsimp only at hgt; omega)]
    simp [hszB, hstB]
  have hfindA : alookup a [(a, (⟨sA, stA, 0⟩ : TXCACHE)),
      (b, ⟨sB, stB, 1⟩)] = some ⟨sA, stA, 0⟩ := by
    simp [alookup]
  have h3 := get_spec_hit
    (⟨opts, B, sA + sB, [(a, ⟨sA, stA, 0⟩), (b, ⟨sB, stB, 1⟩)],
      [(0, a), (1, b)], 2, 0⟩ : MemCache) ext a ⟨sA, stA, 0⟩ ha hfindA
  have h3s := congrArg Prod.snd h3
  dsimp only at h3s
  rw [if_pos hBne] at h3s
  have h3s' : ((⟨opts, B, sA + sB, [(a, ⟨sA, stA, 0⟩), (b, ⟨sB, stB, 1⟩)],
        [(0, a), (1, b)], 2, 0⟩ : MemCache).get ext a).2 =
      ⟨opts, B, sA + sB, [(a, ⟨sA, stA, 2⟩), (b, ⟨sB, stB, 1⟩)],
        [(1, b), (2, a)], 3, 0⟩ := by
    rw [h3s]
    simp [eraseNode, updateIt, Ne.symm hab]
  have hlkb : alookup b [(a, (⟨sA, stA, 2⟩ : TXCACHE)),
      (b, ⟨sB, stB, 1⟩)] = some ⟨sB, stB, 1⟩ := by
    simp [alookup, hab]
  have hev : evictLoop B (sA + sB + sC)
      [(a, ⟨sA, stA, 2⟩), (b, ⟨sB, stB, 1⟩)] [(1, b), (2, a)] =
      (sA + sC, [(a, ⟨sA, stA, 2⟩)], [(2, a)]) := by
    simp only [evictLoop, hlkb]
    try dsimp only
    have hsub : sA + sB + sC - sB = sA + sC := by omega
    rw [hsub, if_pos hfit]
    simp [aerase, hab]
  have h4 : (⟨opts, B, sA + sB, [(a, ⟨sA, stA, 2⟩), (b, ⟨sB, stB, 1⟩)],
        [(1, b), (2, a)], 3, 0⟩ : MemCache).add ext c3 iC sC =
      (true, ⟨opts, B, sA + sC, [(a, ⟨sA, stA, 2⟩), (c3, ⟨sC, stC, 3⟩)],
        [(2, a), (3, c3)], 4, 0⟩) := by
    rw [add_spec_evict _ ext c3 iC sC
      (by simp [hc, hdC, alookup, hac, hbc])
      (by rw [hszC]; exact hsC) hBne
      (by
        refine ⟨?_, by simp⟩
        dsimp only
        rw [hszC]
        omega)]
    dsimp only
    rw [hszC]
    rw [hev]
    dsimp only
    have hsub2 : sA + sC - sC + sC = sA + sC := by omega
    rw [hsub2]
    simp [hstC]
  rw [h1]
  try dsimp only
  rw [h2]
  try dsimp only
  rw [h3s']
  rw [h4]
  try dsimp only
  refine ⟨?_, ?_, ?_, rfl⟩
  · simp [MemCache.isCached, alookup]
  · simp [MemCache.isCached, alookup, hab, Ne.symm hbc]
  · simp [MemCache.isCached, alookup, hac]

theorem mem_lru_promotion_amended_witness :
    (((((MemCache.init 0 1000).add extDemo 1 (infoD 0) 600).2.add extDemo 2
        (infoD 0) 300).2.get extDemo 1).2.add extDemo 3 (infoD 0)
        300).2.isCached 1 = true ∧
    (((((MemCache.init 0 1000).add extDemo 1 (infoD 0) 600).2.add extDemo 2
        (infoD 0) 300).2.get extDemo 1).2.add extDemo 3 (infoD 0)
        300).2.isCached 2 = false ∧
    (((((MemCache.init 0 1000).add extDemo 1 (infoD 0) 600).2.add extDemo 2
        (infoD 0) 300).2.get extDemo 1).2.add extDemo 3 (infoD 0)
        300).2.isCached 3 = true ∧
    (((((MemCache.init 0 1000).add extDemo 1 (infoD 0) 600).2.add extDemo 2
        (infoD 0) 300).2.get extDemo 1).2.add extDemo 3 (infoD 0)
        300).2.totalSize = 600 + 300 :=
  mem_lru_promotion_amended extDemo 0 1000 1 2 3 600 300 300
    (infoD 0) (infoD 0) (infoD 0)
    (by decide) (by decide) (by decide) (by decide) (by decide) (by decide)
    (by decide) (by decide) (by decide) (by decide) (by decide) (by decide)
    (by decide) (by decide) (by decide) (by decide)

/-- The LRU scenario in the order C3 states it (A added, A fetched, then B
added): the eviction pass removes A — the least recently used entry — and
B survives, contradicting the claim that B is evicted and A survives. -/
theorem mem_lru_promotion_cex :
    (((((MemCache.init 0 1000).add extDemo 1 (infoD 0) 600).2.get extDemo
        1).2.add extDemo 2 (infoD 0) 300).2.add extDemo 3 (infoD 0)
        300).2.isCached 1 = false ∧
    (((((MemCache.init 0 1000).add extDemo 1 (infoD 0) 600).2.get extDemo
        1).2.add extDemo 2 (infoD 0) 300).2.add extDemo 3 (infoD 0)
        300).2.isCached 2 = true := by decide
